import Mathlib

/-!
Shallow embedding of the task-lifecycle and metrics engine of
`src/app/page.tsx` (a personal daily-task tracker), followed by theorems
checking the specification's claims about it.

Modelling conventions, fixed once for the whole file:
* Calendar dates are integers (one per calendar day, consecutive days
  differing by 1): the source only compares its ISO date strings for
  equality and steps them by whole days, so the string representation is
  abstracted away.
* Block ids (`Date.now()`, `Date.now() + Math.random()`) are opaque values
  compared only for equality; they are modelled as integers supplied by the
  caller (the clock / RNG is an injected dependency).
* React state updates (`setBlocks(prev => ...)`) are modelled as pure
  functions from the previous block list to the next one.
-/

namespace LifeTracker

/-- Fixed category set of a block (source: `type Category`, line 21). -/
inductive Category
  | Work
  | Health
  | Skill
  | Personal
deriving DecidableEq, Repr

/-- A task record (source: `type Block`, lines 23-31). -/
structure Block where
  id : Int
  title : String
  completed : Bool
  category : Category
  date : Int
  isRecurring : Bool
  order : Nat
deriving DecidableEq, Repr

/-- Model of `todaysBlocks` (source lines 128-130):
`blocks.filter(b => b.date === today).sort((a, b) => a.order - b.order)`.
JS `Array.prototype.sort` with this comparator is a stable ascending sort by
`order`; insertion sort is stable and agrees with it (and with every stable
sort) elementwise; when the partition's `order` values are distinct the
result is moreover forced by sortedness alone. -/
def todaysBlocks (blocks : List Block) (today : Int) : List Block :=
  List.insertionSort (fun a b => a.order ≤ b.order)
    (blocks.filter (fun b => b.date == today))

/-- Model of JS `String.prototype.trim`: strip leading and trailing
whitespace (for the ASCII whitespace the claims are about; JS additionally
strips some Unicode space characters). -/
def jsTrim (s : String) : String :=
  String.mk (((s.data.dropWhile Char.isWhitespace).reverse.dropWhile
    Char.isWhitespace).reverse)

/-- Model of `addBlock` (source lines 144-160): a blank title is rejected
(`if (!newBlock.trim()) return`, where the empty string is the only falsy
string), otherwise a block is appended with `completed = false`,
`date = today` and `order = todaysBlocks.length`.
The `Date.now()` id is the injected `newId`. -/
def addBlock (blocks : List Block) (today : Int) (newId : Int)
    (title : String) (category : Category) (isRecurring : Bool) : List Block :=
  if jsTrim title = "" then blocks
  else
    blocks ++ [{ id := newId, title := title, completed := false,
                 category := category, date := today,
                 isRecurring := isRecurring,
                 order := (todaysBlocks blocks today).length }]

/-- Model of `toggleBlock` (source lines 162-166). -/
def toggleBlock (blocks : List Block) (id : Int) : List Block :=
  blocks.map (fun b => if b.id == id then { b with completed := !b.completed } else b)

/-- Model of `deleteBlock` (source lines 168-170):
`prev.filter(b => b.id !== id)`. -/
def deleteBlock (blocks : List Block) (id : Int) : List Block :=
  blocks.filter (fun b => b.id != id)

/-- JS `Array.prototype.splice` start-index rule: a negative start counts
from the end of the array and is clamped at 0; a start past the end is
clamped to the length. -/
def spliceIndex (len : Nat) (i : Int) : Nat :=
  if i < 0 then ((len : Int) + i).toNat else min i.toNat len

/-- Model of `arr.splice(i, 1)`: remove (at most) one element at the
normalised index, returning the remaining array and the removed element
(`none` models JS `undefined` when the index is at or past the end). -/
def spliceRemove (l : List Block) (i : Int) : List Block × Option Block :=
  let j := spliceIndex l.length i
  (l.take j ++ l.drop (j + 1), l.get? j)

/-- Model of `arr.splice(i, 0, x)`: insert `x` at the normalised index. -/
def spliceInsert (l : List Block) (i : Int) (x : Block) : List Block :=
  let j := spliceIndex l.length i
  l.take j ++ x :: l.drop j

/-- JS `Array.prototype.findIndex`: the index of the first match, `-1` when
no element matches. -/
def findIndexJS (p : Block → Bool) (l : List Block) : Int :=
  if l.findIdx p < l.length then (l.findIdx p : Int) else -1

/-- Model of the index-aware map `reordered.map((b, i) => ({ ...b, order: i }))`
(source line 188), as explicit recursion on the running index. -/
def withOrders (i : Nat) : List Block → List Block
  | [] => []
  | b :: rest => { b with order := i } :: withOrders (i + 1) rest

/-- Model of `handleDragEnd` (source lines 172-193).  `over = none` models a
drop outside every target (`!over`).  The source never checks `findIndex`
for `-1`, so missing ids flow into `splice`, whose negative-start rule is
kept faithfully by `spliceRemove`/`spliceInsert`.  One corner is unreachable
for the model's `Block` type: when today's partition is empty and the guard
is passed, the source destructures `undefined` from the empty splice result
and spreads it, fabricating a degenerate object with only an `order` field;
that state cannot arise from the UI (a drag starts on a rendered today
block) and the branch is modelled as leaving the store unchanged.  No
theorem below relies on that branch. -/
def handleDragEnd (blocks : List Block) (today : Int)
    (movedId : Int) (over : Option Int) : List Block :=
  match over with
  | none => blocks
  | some targetId =>
    if movedId = targetId then blocks
    else
      let todayItems := todaysBlocks blocks today
      let oldIndex := findIndexJS (fun b => b.id == movedId) todayItems
      let newIndex := findIndexJS (fun b => b.id == targetId) todayItems
      match spliceRemove todayItems oldIndex with
      | (rest, some moved) =>
          blocks.filter (fun b => b.date != today)
            ++ withOrders 0 (spliceInsert rest newIndex moved)
      | (_, none) => blocks

/-- Model of the per-template clone
`{...b, id: Date.now() + Math.random(), completed: false, date: today}`
(source lines 115-120), fresh ids supplied by `newId` indexed by position in
the template list.  The spread carries `title`, `category`, `isRecurring`
and also `order` over from the template unchanged. -/
def genFrom (newId : Nat → Int) (today : Int) : Nat → List Block → List Block
  | _, [] => []
  | i, b :: rest =>
      { b with id := newId i, completed := false, date := today }
        :: genFrom newId today (i + 1) rest

/-- Model of the recurrence effect (source lines 110-125): if some stored
block is recurring and dated today, stop; otherwise clone every recurring
block dated other than today into a today instance and append the clones
(`if (generated.length) setBlocks(prev => [...prev, ...generated])`). -/
def recurrencePass (blocks : List Block) (today : Int) (newId : Nat → Int) :
    List Block :=
  let templates := blocks.filter (fun b => b.isRecurring && b.date != today)
  if blocks.any (fun b => b.isRecurring && b.date == today) then blocks
  else
    let generated := genFrom newId today 0 templates
    if generated.length = 0 then blocks else blocks ++ generated

/-- Does some block dated `d` have `completed = true`?  (body of the `some`
call in `streak`, source line 50). -/
def hasCompletedOn (blocks : List Block) (d : Int) : Bool :=
  blocks.any (fun b => b.date == d && b.completed)

/-- The loop of `streak` (source lines 46-52): fuel counts the remaining
iterations of `for (let i = 0; i < 365; i++)`, `d` is the day under
examination; a counting day adds 1 and moves one day back, a gap breaks. -/
def streakGo (blocks : List Block) : Nat → Int → Nat
  | 0, _ => 0
  | n + 1, d => if hasCompletedOn blocks d then streakGo blocks n (d - 1) + 1 else 0

/-- Model of `streak` (source lines 44-54). -/
def streak (blocks : List Block) (today : Int) : Nat :=
  streakGo blocks 365 today

/-- Model of `last7Days` (source lines 36-42): the 7 dates
today-6, …, today, oldest first. -/
def last7Days (today : Int) : List Int :=
  (List.range 7).map (fun i : Nat => today - (6 - (i : Int)))

/-- Count of completed blocks dated `d` (body of `weeklyData`, source
line 140). -/
def completedCountOn (blocks : List Block) (d : Int) : Nat :=
  (blocks.filter (fun b => b.date == d && b.completed)).length

/-- Model of `weeklyData` (source lines 138-141).  The chart label is the
`MM-DD` slice of the date string; with dates as integers the label is the
date itself. -/
def weeklyData (blocks : List Block) (today : Int) : List (Int × Nat) :=
  (last7Days today).map (fun d => (d, completedCountOn blocks d))

/-- Model of `progress` (source lines 132-136):
`Math.round((completed / todaysBlocks.length) * 100)` guarded to 0 when
today has no blocks.  The JS number arithmetic on these personal-scale
counts is modelled exactly over ℚ; `Math.round` (round half toward +∞) is
Mathlib's `round`. -/
def progress (blocks : List Block) (today : Int) : Int :=
  let tb := todaysBlocks blocks today
  if tb.length = 0 then 0
  else round ((((tb.filter (fun b => b.completed)).length : ℚ) / tb.length) * 100)

/-- Model of the storage load effect (source lines 100-103):
`const saved = localStorage.getItem("blocks"); if (saved) setBlocks(JSON.parse(saved));`.
`saved = none` models `getItem` returning `null`; a falsy (empty) string
also skips the parse, leaving the initial state `[]`.  `JSON.parse` is a
platform function modelled abstractly by `parse`; `Except.error` models the
`SyntaxError` it throws on a corrupt snapshot.  The source wraps the call in
no `try`, so an error result propagates. -/
def loadBlocks (saved : Option String)
    (parse : String → Except String (List Block)) : Except String (List Block) :=
  match saved with
  | none => Except.ok []
  | some s => if s = "" then Except.ok [] else parse s

/-- Order values of the blocks dated `d` (in store order). -/
def ordersOn (blocks : List Block) (d : Int) : List Nat :=
  (blocks.filter (fun b => b.date == d)).map (fun b => b.order)

/-- Order-density invariant of the spec: within every date partition the
multiset of `order` values is exactly 0, …, n-1, each once. -/
def dense (blocks : List Block) : Prop :=
  ∀ d : Int, (ordersOn blocks d).Perm (List.range (ordersOn blocks d).length)

/-- One user operation of the kinds the density claim quantifies over. -/
inductive Op
  | add (newId : Int) (title : String) (category : Category) (isRecurring : Bool)
  | drag (movedId : Int) (over : Option Int)
  | del (id : Int)
deriving DecidableEq, Repr

/-- Whether an operation is a delete. -/
def Op.isDel : Op → Bool
  | .del _ => true
  | _ => false

/-- Apply one operation to the store. -/
def applyOp (today : Int) (blocks : List Block) : Op → List Block
  | .add newId title c r => addBlock blocks today newId title c r
  | .drag movedId over => handleDragEnd blocks today movedId over
  | .del id => deleteBlock blocks id

/-- Apply a sequence of operations, left to right. -/
def applyOps (today : Int) (blocks : List Block) (ops : List Op) : List Block :=
  ops.foldl (applyOp today) blocks

/-! Concrete blocks used in witnesses and counterexamples. -/

/-- Example block: id 1, dated day 0, order 0. -/
def exA : Block :=
  { id := 1, title := "a", completed := false, category := Category.Work,
    date := 0, isRecurring := false, order := 0 }

/-- Example block: id 2, dated day 0, order 1. -/
def exB : Block :=
  { id := 2, title := "b", completed := false, category := Category.Work,
    date := 0, isRecurring := false, order := 1 }

/-- Example recurring template dated day 0 (used with `today = 1`). -/
def exT : Block :=
  { id := 1, title := "Run", completed := true, category := Category.Health,
    date := 0, isRecurring := true, order := 0 }

/-- Example non-recurring block dated day 1. -/
def exX : Block :=
  { id := 2, title := "x", completed := false, category := Category.Work,
    date := 1, isRecurring := false, order := 0 }

/-- A parse function that fails on every input, modelling `JSON.parse`
throwing `SyntaxError` on a corrupt snapshot. -/
def badParse : String → Except String (List Block) :=
  fun _ => Except.error "SyntaxError"

end LifeTracker

namespace LifeTracker

/-! ### Claim C9: blank titles are rejected silently -/

/-- C9.  `addBlock` with an empty or whitespace-only title leaves the store
unchanged: the guard `if (!newBlock.trim()) return` fires and no block is
appended, with no error raised (the function simply returns). -/
theorem addBlock_blank_title_noop (blocks : List Block) (today : Int)
    (newId : Int) (title : String) (category : Category) (isRecurring : Bool)
    (h : jsTrim title = "") :
    addBlock blocks today newId title category isRecurring = blocks := by
  simp [addBlock, h]

/-- Witness for C9 at a concrete whitespace-only title. -/
theorem addBlock_blank_title_noop_witness :
    addBlock [exA] 0 9 "   " Category.Work true = [exA] :=
  addBlock_blank_title_noop [exA] 0 9 "   " Category.Work true (by decide)

/-! ### Claim C10: deleteBlock removes exactly the matching ids, frame intact -/

/-- C10.  `deleteBlock id` keeps a block exactly when its id differs from
`id`; the survivors appear unchanged field-for-field (their `order`
included) and in their original relative positions (the result is a sublist
of the input, so no reindexing happens inside the delete); deleting an id
not present leaves the store unchanged. -/
theorem deleteBlock_spec (blocks : List Block) (id : Int) :
    (∀ b : Block, b ∈ deleteBlock blocks id ↔ b ∈ blocks ∧ b.id ≠ id) ∧
    (deleteBlock blocks id).Sublist blocks ∧
    ((∀ b ∈ blocks, b.id ≠ id) → deleteBlock blocks id = blocks) := by
  refine ⟨fun b => ?_, ?_, fun h => ?_⟩
  · simp [deleteBlock, List.mem_filter, bne_iff_ne]
  · exact List.filter_sublist blocks
  · exact List.filter_eq_self.mpr (fun b hb => by simpa [bne_iff_ne] using h b hb)

/-- Witness for C10: deleting an absent id is the identity. -/
theorem deleteBlock_spec_witness : deleteBlock [exA, exB] 5 = [exA, exB] :=
  (deleteBlock_spec [exA, exB] 5).2.2 (by decide)

/-! ### Claim C8: load of a corrupt snapshot -/

/-- Counterexample to C8 as stated: with a corrupt snapshot the load effect
does not fall back to the empty store; `JSON.parse`'s error propagates
because the source guards only the missing-snapshot case (`if (saved)`)
and wraps the parse in no `try`. -/
theorem loadBlocks_corrupt_propagates :
    loadBlocks (some "corrupt") badParse = Except.error "SyntaxError" ∧
    loadBlocks (some "corrupt") badParse ≠ Except.ok [] := by
  constructor
  · rfl
  · intro h
    simp [loadBlocks, badParse] at h

/-- C8 (amended).  When no snapshot exists (`getItem` returns `null`) — or
the stored string is empty, hence falsy — the store starts empty; when the
snapshot is corrupt, the parse error propagates out of the load effect
instead of being absorbed into an empty store. -/
theorem loadBlocks_spec (parse : String → Except String (List Block)) :
    loadBlocks none parse = Except.ok [] ∧
    loadBlocks (some "") parse = Except.ok [] ∧
    (∀ (s : String) (e : String), s ≠ "" → parse s = Except.error e →
      loadBlocks (some s) parse = Except.error e) := by
  refine ⟨rfl, rfl, fun s e hs hp => ?_⟩
  simp [loadBlocks, hs, hp]

/-- Witness for C8's amended theorem at a concrete corrupt snapshot. -/
theorem loadBlocks_spec_witness :
    loadBlocks (some "corrupt") badParse = Except.error "SyntaxError" :=
  (loadBlocks_spec badParse).2.2 "corrupt" "SyntaxError" (by decide) rfl

/-! ### Claim C4: reorder with unknown or equal ids -/

/-- Counterexample to C4 as stated: with both blocks dated today, a
`movedId` (99) present nowhere in the store is not detected —
`findIndex` returns -1, `splice(-1, 1)` removes the LAST element, and the
store changes (the two blocks swap their `order`s). -/
theorem dragEnd_unknown_id_mutates :
    (∀ b ∈ [exA, exB], b.id ≠ 99) ∧
    handleDragEnd [exA, exB] 0 99 (some 1) ≠ [exA, exB] := by
  constructor
  · decide
  · decide

/-- C4 (amended).  The guard `if (!over || active.id === over.id) return`
makes the reorder a no-op when there is no drop target or when the moved
and target ids coincide; an id missing from today's partition is NOT
guarded, and the operation can then mutate the store (negative `splice`
indices count from the end). -/
theorem dragEnd_noop (blocks : List Block) (today : Int) (movedId : Int)
    (over : Option Int) (h : over = none ∨ over = some movedId) :
    handleDragEnd blocks today movedId over = blocks := by
  rcases h with h | h <;> subst h <;> simp [handleDragEnd]

/-- Witness for C4's amended theorem: dropping a block on itself. -/
theorem dragEnd_noop_witness : handleDragEnd [exA, exB] 0 1 (some 1) = [exA, exB] :=
  dragEnd_noop [exA, exB] 0 1 (some 1) (Or.inr rfl)

/-! ### Claim C5: the streak walk -/

/-- The streak loop never exceeds its remaining fuel. -/
theorem streakGo_le (blocks : List Block) : ∀ (n : Nat) (d : Int),
    streakGo blocks n d ≤ n
  | 0, _ => Nat.le_refl 0
  | n + 1, d => by
      rw [streakGo]
      split
      · exact Nat.succ_le_succ (streakGo_le blocks n (d - 1))
      · exact Nat.zero_le _

/-- Every day strictly inside the streak counts. -/
theorem streakGo_counts (blocks : List Block) : ∀ (n : Nat) (d : Int) (i : Nat),
    i < streakGo blocks n d → hasCompletedOn blocks (d - i) = true := by
  intro n
  induction n with
  | zero => intro d i h; simp [streakGo] at h
  | succ n ih =>
      intro d i h
      rw [streakGo] at h
      by_cases hc : hasCompletedOn blocks d = true
      · rw [if_pos hc] at h
        match i with
        | 0 => simpa using hc
        | j + 1 =>
            have hj : j < streakGo blocks n (d - 1) := by omega
            have := ih (d - 1) j hj
            have harith : d - (↑(j + 1) : Int) = d - 1 - (j : Int) := by push_cast; ring
            rw [harith]
            exact this
      · rw [if_neg hc] at h
        omega

/-- When the loop stops before exhausting the 365-day bound, the day right
after the streak does not count. -/
theorem streakGo_stops (blocks : List Block) : ∀ (n : Nat) (d : Int),
    streakGo blocks n d < n →
    hasCompletedOn blocks (d - streakGo blocks n d) = false := by
  intro n
  induction n with
  | zero => intro d h; omega
  | succ n ih =>
      intro d h
      rw [streakGo] at h ⊢
      by_cases hc : hasCompletedOn blocks d = true
      · rw [if_pos hc] at h ⊢
        have hlt : streakGo blocks n (d - 1) < n := by omega
        have := ih (d - 1) hlt
        have harith : d - (↑(streakGo blocks n (d - 1) + 1) : Int)
            = d - 1 - (streakGo blocks n (d - 1) : Int) := by push_cast; ring
        rw [harith]
        exact this
      · rw [if_neg hc] at h ⊢
        simpa using hc

/-- C5.  `streak` walks backward from today, day by day, within a 365-day
lookback bound: every day of the streak (counting from today) has some
completed block; when the bound is not exhausted, the first day past the
streak has none (so the walk stopped at the first gap); and a today with no
completed block yields streak 0 regardless of prior days. -/
theorem streak_spec (blocks : List Block) (today : Int) :
    streak blocks today ≤ 365 ∧
    (∀ i : Nat, i < streak blocks today →
      hasCompletedOn blocks (today - i) = true) ∧
    (streak blocks today < 365 →
      hasCompletedOn blocks (today - streak blocks today) = false) ∧
    (hasCompletedOn blocks today = false → streak blocks today = 0) := by
  refine ⟨streakGo_le blocks 365 today, streakGo_counts blocks 365 today,
    streakGo_stops blocks 365 today, fun h => ?_⟩
  by_contra hne
  have h0 : 0 < streak blocks today := Nat.pos_of_ne_zero hne
  have hcount := streakGo_counts blocks 365 today 0 h0
  rw [show today - ((0 : Nat) : Int) = today by simp] at hcount
  rw [h] at hcount
  exact Bool.false_ne_true hcount

/-- Witness for C5: a store completed today and yesterday but not before
yields streak 2, every day inside the streak counts, and an
empty store yields streak 0. -/
theorem streak_spec_witness :
    hasCompletedOn
      [{ exA with completed := true },
       { exB with completed := true, date := -1 }] (0 - (1 : Nat)) = true ∧
    hasCompletedOn
      [{ exA with completed := true },
       { exB with completed := true, date := -1 }]
      (0 - (streak [{ exA with completed := true },
        { exB with completed := true, date := -1 }] 0 : Nat)) = false ∧
    streak ([] : List Block) 0 = 0 :=
  ⟨(streak_spec [{ exA with completed := true },
      { exB with completed := true, date := -1 }] 0).2.1 1 (by decide),
   (streak_spec [{ exA with completed := true },
      { exB with completed := true, date := -1 }] 0).2.2.1 (by decide),
   (streak_spec ([] : List Block) 0).2.2.2 (by decide)⟩

/-! ### Claim C6: the weekly histogram -/

/-- C6.  `weeklyData` has exactly 7 entries; entry `i` (0-based) is the date
`today - 6 + i` — so the entries run oldest-to-newest, ending at today —
paired with the number of completed blocks on that date; with no blocks on a
date (in particular on every date when the store is empty) the count is 0. -/
theorem weeklyData_spec (blocks : List Block) (today : Int) :
    (weeklyData blocks today).length = 7 ∧
    (∀ i : Nat, i < 7 →
      (weeklyData blocks today)[i]? =
        some (today - 6 + i, completedCountOn blocks (today - 6 + i))) ∧
    (∀ d : Int, completedCountOn ([] : List Block) d = 0) := by
  refine ⟨?_, fun i hi => ?_, fun d => rfl⟩
  · simp only [weeklyData, last7Days, List.length_map, List.length_range]
  · have harith : today - (6 - (i : Int)) = today - 6 + i := by ring
    simp only [weeklyData, last7Days, List.getElem?_map,
      List.getElem?_range hi, Option.map_some']
    rw [harith]

/-- Witness for C6 at the empty store: 7 entries, entry 0 is the oldest date
`today - 6` with count 0. -/
theorem weeklyData_spec_witness :
    (weeklyData ([] : List Block) 0).length = 7 ∧
    (weeklyData ([] : List Block) 0)[0]? =
      some ((0 : Int) - 6 + ((0 : Nat) : Int),
        completedCountOn ([] : List Block) ((0 : Int) - 6 + ((0 : Nat) : Int))) :=
  ⟨(weeklyData_spec ([] : List Block) 0).1,
   (weeklyData_spec ([] : List Block) 0).2.1 0 (by decide)⟩

/-! ### Claim C7: today's progress percentage -/

/-- C7.  `progress` is 0 when no block is dated today, and otherwise is the
completed count over the total count of today's blocks as a rounded
percentage (`Math.round`, i.e. round half toward plus infinity). -/
theorem progress_spec (blocks : List Block) (today : Int) :
    ((blocks.filter (fun b => b.date == today)).length = 0 →
      progress blocks today = 0) ∧
    ((blocks.filter (fun b => b.date == today)).length ≠ 0 →
      progress blocks today =
        round ((((blocks.filter (fun b => b.date == today && b.completed)).length : ℚ) /
          ((blocks.filter (fun b => b.date == today)).length : ℚ)) * 100)) := by
  have hperm : (todaysBlocks blocks today).Perm (blocks.filter (fun b => b.date == today)) :=
    List.perm_insertionSort _ _
  have hlen := hperm.length_eq
  have hcomp := (hperm.filter (fun b => b.completed)).length_eq
  have hff : ((blocks.filter (fun b => b.date == today)).filter (fun b => b.completed))
      = blocks.filter (fun b => b.date == today && b.completed) := by
    rw [List.filter_filter]
    exact List.filter_congr (fun b _ => Bool.and_comm _ _)
  constructor
  · intro h
    have h0 : (todaysBlocks blocks today).length = 0 := by omega
    simp [progress, h0]
  · intro h
    have h0 : ¬ (todaysBlocks blocks today).length = 0 := by omega
    rw [hff] at hcomp
    simp only [progress]
    rw [if_neg h0, hlen, hcomp]

/-- Witness for C7: the spec's example — 3 blocks today, 1 completed —
gives 33, and an empty store gives 0. -/
theorem progress_spec_witness :
    progress [{ exA with completed := true }, exB,
      { exB with id := 3, order := 2 }] 0 = 33 ∧
    progress ([] : List Block) 0 = 0 := by
  refine ⟨?_, (progress_spec ([] : List Block) 0).1 rfl⟩
  have h := (progress_spec [{ exA with completed := true }, exB,
    { exB with id := 3, order := 2 }] 0).2 (by decide)
  have hc : (([{ exA with completed := true }, exB,
      { exB with id := 3, order := 2 }] : List Block).filter
        (fun b => b.date == 0 && b.completed)).length = 1 := by decide
  have hn : (([{ exA with completed := true }, exB,
      { exB with id := 3, order := 2 }] : List Block).filter
        (fun b => b.date == 0)).length = 3 := by decide
  have hfloor : ⌊(203 : ℚ) / 6⌋ = 33 := by
    rw [Int.floor_eq_iff]
    norm_num
  rw [h, hc, hn, round_eq]
  push_cast
  rw [show (1 : ℚ) / 3 * 100 + 1 / 2 = 203 / 6 by norm_num]
  exact hfloor

/-! ### Claims C2 and C3: the recurrence pass -/

/-- Elementwise description of the generated clones: entry `i` is template
`i` with the `i`-th fresh id, `completed` cleared and `date` set to today —
every other field, `order` included, carried over by the spread. -/
theorem genFrom_get? (newId : Nat → Int) (today : Int) :
    ∀ (l : List Block) (k i : Nat),
      (genFrom newId today k l)[i]? =
        (l[i]?).map (fun t =>
          { t with id := newId (k + i), completed := false, date := today })
  | [], _, _ => by simp [genFrom]
  | b :: rest, k, 0 => by simp [genFrom]
  | b :: rest, k, i + 1 => by
      simp only [genFrom, List.getElem?_cons_succ]
      rw [genFrom_get? newId today rest (k + 1) i,
        show k + 1 + i = k + (i + 1) by omega]

/-- One clone is generated per template. -/
theorem genFrom_length (newId : Nat → Int) (today : Int) :
    ∀ (k : Nat) (l : List Block), (genFrom newId today k l).length = l.length
  | _, [] => rfl
  | k, _ :: rest => by
      simp [genFrom, genFrom_length newId today (k + 1) rest]

/-- Clones of recurring templates are recurring blocks dated today. -/
theorem genFrom_recurring_today (newId : Nat → Int) (today : Int) :
    ∀ (k : Nat) (l : List Block), (∀ t ∈ l, t.isRecurring = true) →
      ∀ b ∈ genFrom newId today k l, (b.isRecurring && b.date == today) = true
  | _, [], _, b, hb => by simp [genFrom] at hb
  | k, t :: rest, hl, b, hb => by
      rw [genFrom] at hb
      rcases List.mem_cons.mp hb with h | h
      · subst h
        simp [hl t (List.mem_cons_self t rest)]
      · exact genFrom_recurring_today newId today (k + 1) rest
          (fun u hu => hl u (List.mem_cons_of_mem t hu)) b h

/-- Short-circuit of the recurrence pass: a stored recurring block dated
today makes the whole pass the identity. -/
theorem recurrencePass_of_recurringToday (blocks : List Block) (today : Int)
    (newId : Nat → Int)
    (h : blocks.any (fun b => b.isRecurring && b.date == today) = true) :
    recurrencePass blocks today newId = blocks := by
  simp [recurrencePass, h]

/-- Without the short-circuit, the pass appends the generated clones of the
templates (and appends nothing when there is no template). -/
theorem recurrencePass_eq_append (blocks : List Block) (today : Int)
    (newId : Nat → Int)
    (hex : blocks.any (fun b => b.isRecurring && b.date == today) = false) :
    recurrencePass blocks today newId =
      blocks ++ genFrom newId today 0
        (blocks.filter (fun b => b.isRecurring && b.date != today)) := by
  simp only [recurrencePass, hex, Bool.false_eq_true, if_false]
  by_cases h0 : (genFrom newId today 0
      (blocks.filter (fun b => b.isRecurring && b.date != today))).length = 0
  · rw [if_pos h0, List.length_eq_zero.mp h0, List.append_nil]
  · rw [if_neg h0]

/-- C2 (amended).  When no stored block is recurring and dated today, the
pass appends one generated block per template (recurring block dated other
than today, in store order): entry `i` has the `i`-th supplied fresh id,
`completed = false`, `date = today`, and the template's `title`, `category`
and `isRecurring` — and also the template's `order`, copied unchanged
rather than reassigned by the today-append rule. -/
theorem recurrence_generated_fields (blocks : List Block) (today : Int)
    (newId : Nat → Int)
    (hex : blocks.any (fun b => b.isRecurring && b.date == today) = false) :
    ∃ generated : List Block,
      recurrencePass blocks today newId = blocks ++ generated ∧
      ∀ i : Nat,
        generated[i]? =
          ((blocks.filter (fun b => b.isRecurring && b.date != today))[i]?).map
            (fun t => { t with id := newId i, completed := false, date := today }) := by
  refine ⟨genFrom newId today 0
    (blocks.filter (fun b => b.isRecurring && b.date != today)),
    recurrencePass_eq_append blocks today newId hex, fun i => ?_⟩
  rw [genFrom_get?]
  simp

/-- Witness for C2's amended theorem: one historical template (exT, dated
day 0) and one non-recurring today block (exX), with today = 1. -/
theorem recurrence_generated_fields_witness :
    ∃ generated : List Block,
      recurrencePass [exT, exX] 1 (fun i => (100 : Int) + i) =
        [exT, exX] ++ generated ∧
      ∀ i : Nat,
        generated[i]? =
          (([exT, exX].filter (fun b => b.isRecurring && b.date != 1))[i]?).map
            (fun t => { t with id := (100 : Int) + i, completed := false, date := 1 }) :=
  recurrence_generated_fields [exT, exX] 1 (fun i => (100 : Int) + i) (by decide)

/-- Counterexample to C2 as stated: the generated clone keeps the template's
`order` (here 0) instead of receiving the today-append order (today already
holds one block, so the append rule would assign order 1).  The spread
`{...b, id, completed, date}` never touches `order`. -/
theorem recurrence_order_copied :
    recurrencePass [exT, exX] 1 (fun i => (100 : Int) + i) =
      [exT, exX,
        { id := 100, title := "Run", completed := false,
          category := Category.Health, date := 1, isRecurring := true,
          order := 0 }] ∧
    (todaysBlocks [exT, exX] 1).length = 1 ∧
    recurrencePass [exT, exX] 1 (fun i => (100 : Int) + i) ≠
      [exT, exX,
        { id := 100, title := "Run", completed := false,
          category := Category.Health, date := 1, isRecurring := true,
          order := 1 }] :=
  ⟨by decide, by decide, by decide⟩

/-- C3.  The recurrence pass is idempotent for a fixed `today`: it is the
identity as soon as some stored block is recurring and dated today; a
second run — with any id supply — after a first run changes nothing; and a
run from a state with no recurring today-dated block creates exactly one
recurring today-dated instance per template found. -/
theorem recurrence_idempotent (blocks : List Block) (today : Int)
    (f g : Nat → Int) :
    (blocks.any (fun b => b.isRecurring && b.date == today) = true →
      recurrencePass blocks today f = blocks) ∧
    recurrencePass (recurrencePass blocks today f) today g =
      recurrencePass blocks today f ∧
    (blocks.any (fun b => b.isRecurring && b.date == today) = false →
      ((recurrencePass blocks today f).filter
          (fun b => b.isRecurring && b.date == today)).length =
        (blocks.filter (fun b => b.isRecurring && b.date != today)).length) := by
  have htempl : ∀ t ∈ blocks.filter (fun b => b.isRecurring && b.date != today),
      t.isRecurring = true := by
    intro t ht
    have h2 := (List.mem_filter.mp ht).2
    simp only [Bool.and_eq_true] at h2
    exact h2.1
  refine ⟨recurrencePass_of_recurringToday blocks today f, ?_, fun hex => ?_⟩
  · by_cases hex : blocks.any (fun b => b.isRecurring && b.date == today) = true
    · rw [recurrencePass_of_recurringToday blocks today f hex,
        recurrencePass_of_recurringToday blocks today g hex]
    · have hex' : blocks.any (fun b => b.isRecurring && b.date == today) = false :=
        Bool.eq_false_iff.mpr hex
      rw [recurrencePass_eq_append blocks today f hex']
      cases htemp : blocks.filter (fun b => b.isRecurring && b.date != today) with
      | nil =>
          simp only [genFrom, List.append_nil]
          rw [recurrencePass_eq_append blocks today g hex', htemp]
          simp only [genFrom, List.append_nil]
      | cons t ts =>
          apply recurrencePass_of_recurringToday
          rw [List.any_append]
          have htmem : t ∈ blocks.filter (fun b => b.isRecurring && b.date != today) := by
            rw [htemp]
            exact List.mem_cons_self t ts
          have hhead : ((genFrom f today 0 (t :: ts)).any
              (fun b => b.isRecurring && b.date == today)) = true := by
            apply List.any_eq_true.mpr
            refine ⟨{ t with id := f 0, completed := false, date := today },
              ?_, ?_⟩
            · simp only [genFrom]
              exact List.mem_cons_self _ _
            · simp [htempl t htmem]
          rw [hhead, Bool.or_true]
  · rw [recurrencePass_eq_append blocks today f hex, List.filter_append,
      List.length_append]
    have hb0 : blocks.filter (fun b => b.isRecurring && b.date == today) = [] :=
      List.filter_eq_nil_iff.mpr (List.any_eq_false.mp hex)
    have hgen : (genFrom f today 0
          (blocks.filter (fun b => b.isRecurring && b.date != today))).filter
            (fun b => b.isRecurring && b.date == today)
        = genFrom f today 0 (blocks.filter (fun b => b.isRecurring && b.date != today)) :=
      List.filter_eq_self.mpr
        (genFrom_recurring_today f today 0 _ htempl)
    rw [hb0, hgen, genFrom_length]
    simp

/-- Witness for C3: short-circuit on a store already holding a recurring
today block; idempotence and the one-instance-per-template count on the
exT/exX store. -/
theorem recurrence_idempotent_witness :
    recurrencePass [exT] 0 (fun i => (100 : Int) + i) = [exT] ∧
    recurrencePass (recurrencePass [exT, exX] 1 (fun i => (100 : Int) + i)) 1
        (fun i => (200 : Int) + i) =
      recurrencePass [exT, exX] 1 (fun i => (100 : Int) + i) ∧
    ((recurrencePass [exT, exX] 1 (fun i => (100 : Int) + i)).filter
        (fun b => b.isRecurring && b.date == 1)).length =
      ([exT, exX].filter (fun b => b.isRecurring && b.date != 1)).length :=
  ⟨(recurrence_idempotent [exT] 0 (fun i => (100 : Int) + i)
      (fun i => (100 : Int) + i)).1 (by decide),
   (recurrence_idempotent [exT, exX] 1 (fun i => (100 : Int) + i)
      (fun i => (200 : Int) + i)).2.1,
   (recurrence_idempotent [exT, exX] 1 (fun i => (100 : Int) + i)
      (fun i => (100 : Int) + i)).2.2 (by decide)⟩

/-! ### Claim C1: order density under user operations -/

/-- Orders of an appended store split at the append. -/
theorem ordersOn_append (l m : List Block) (d : Int) :
    ordersOn (l ++ m) d = ordersOn l d ++ ordersOn m d := by
  rw [ordersOn, List.filter_append, List.map_append, ordersOn, ordersOn]

/-- Blocks of today's sorted partition are dated today and come from the
store. -/
theorem mem_todaysBlocks {blocks : List Block} {today : Int} {b : Block}
    (h : b ∈ todaysBlocks blocks today) : b ∈ blocks ∧ b.date = today := by
  have h' := (List.perm_insertionSort
    (fun a b : Block => a.order ≤ b.order)
    (blocks.filter (fun b => b.date == today))).mem_iff.mp h
  have h'' := List.mem_filter.mp h'
  exact ⟨h''.1, by simpa using h''.2⟩

/-- Orders on a date other than `today`, seen through the non-today
filter. -/
theorem ordersOn_filter_ne (s : List Block) (today d : Int) :
    ordersOn (s.filter (fun b => b.date != today)) d =
      if d = today then [] else ordersOn s d := by
  rw [ordersOn, List.filter_filter]
  by_cases h : d = today
  · subst h
    rw [if_pos rfl]
    have hnil : s.filter (fun b => (b.date == d) && (b.date != d)) = [] := by
      apply List.filter_eq_nil_iff.mpr
      intro b _
      by_cases hb : b.date = d <;> simp [hb]
    rw [hnil]
    rfl
  · rw [if_neg h, ordersOn]
    congr 1
    apply List.filter_congr
    intro b _
    by_cases hb : b.date = d
    · simp [hb]
      exact h
    · simp [hb]

/-- On a partition whose blocks are all dated `today`, `ordersOn` is just
the map of the `order` field. -/
theorem ordersOn_all_today {l : List Block} {today : Int}
    (h : ∀ b ∈ l, b.date = today) :
    ordersOn l today = l.map (fun b => b.order) := by
  rw [ordersOn, List.filter_eq_self.mpr]
  intro b hb
  simp [h b hb]

/-- A partition whose blocks all miss the date `d` contributes no orders. -/
theorem ordersOn_none {l : List Block} {d : Int}
    (h : ∀ b ∈ l, b.date ≠ d) : ordersOn l d = [] := by
  rw [ordersOn, List.filter_eq_nil_iff.mpr]
  · rfl
  · intro b hb
    simp [h b hb]

/-- Reassigning orders yields exactly the run of indices starting at `k`. -/
theorem withOrders_map_order : ∀ (k : Nat) (l : List Block),
    (withOrders k l).map (fun b => b.order) = List.range' k l.length
  | _, [] => rfl
  | k, b :: rest => by
      simp [withOrders, withOrders_map_order (k + 1) rest, List.range']

/-- Reassigning orders touches no other field: dates come from the input. -/
theorem date_of_mem_withOrders : ∀ (k : Nat) (l : List Block) (b : Block),
    b ∈ withOrders k l → ∃ c ∈ l, b.date = c.date
  | _, [], b, h => absurd h (by simp [withOrders])
  | k, c :: rest, b, h => by
      rw [withOrders] at h
      rcases List.mem_cons.mp h with h' | h'
      · exact ⟨c, List.mem_cons_self c rest, by rw [h']⟩
      · obtain ⟨c', hc', he⟩ := date_of_mem_withOrders (k + 1) rest b h'
        exact ⟨c', List.mem_cons_of_mem c hc', he⟩

/-- The remainder of a JS one-element splice is made of input elements. -/
theorem mem_of_mem_spliceRemove {l : List Block} {i : Int} {b : Block}
    (h : b ∈ (spliceRemove l i).1) : b ∈ l := by
  rcases List.mem_append.mp (by simpa [spliceRemove] using h) with h' | h'
  · exact List.take_subset _ _ h'
  · exact List.drop_subset _ _ h'

/-- The element removed by a JS one-element splice is an input element. -/
theorem mem_of_spliceRemove_some {l : List Block} {i : Int} {m : Block}
    (h : (spliceRemove l i).2 = some m) : m ∈ l := by
  simp only [spliceRemove] at h
  exact List.get?_mem h

/-- A JS zero-delete splice inserts the given element among the input
ones. -/
theorem mem_spliceInsert {l : List Block} {i : Int} {x b : Block}
    (h : b ∈ spliceInsert l i x) : b = x ∨ b ∈ l := by
  simp only [spliceInsert] at h
  rcases List.mem_append.mp h with h' | h'
  · exact Or.inr (List.take_subset _ _ h')
  · rcases List.mem_cons.mp h' with h'' | h''
    · exact Or.inl h''
    · exact Or.inr (List.drop_subset _ _ h'')

/-- Orders of a one-block store. -/
theorem ordersOn_singleton (b : Block) (d : Int) :
    ordersOn [b] d = if b.date == d then [b.order] else [] := by
  by_cases h : (b.date == d) = true
  · simp [ordersOn, h]
  · simp only [Bool.not_eq_true] at h
    simp [ordersOn, h]

/-- Density is preserved by `addBlock`: the new block lands at the end of
today's order sequence, so today's orders grow from `0..n-1` to `0..n`,
and no other partition changes. -/
theorem dense_addBlock (s : List Block) (today : Int) (newId : Int)
    (title : String) (c : Category) (r : Bool) (hd : dense s) :
    dense (addBlock s today newId title c r) := by
  unfold addBlock
  by_cases ht : jsTrim title = ""
  · rwa [if_pos ht]
  · rw [if_neg ht]
    intro d
    rw [ordersOn_append, ordersOn_singleton]
    have hlen : (todaysBlocks s today).length = (ordersOn s today).length := by
      rw [ordersOn, List.length_map]
      exact (List.perm_insertionSort _ _).length_eq
    by_cases hdt : d = today
    · subst hdt
      rw [if_pos (by simp)]
      rw [hlen]
      have hperm : (ordersOn s d ++ [(ordersOn s d).length]).Perm
          (List.range ((ordersOn s d).length + 1)) := by
        rw [List.range_succ]
        exact (hd d).append_right [(ordersOn s d).length]
      simpa using hperm
    · rw [if_neg (by simp; exact fun hcontra => hdt hcontra.symm),
        List.append_nil]
      exact hd d

/-- Density is preserved by `handleDragEnd`: the guard branches leave the
store as is, and the main branch rebuilds today's partition with orders
`0..m-1` (the index-reassigning map) while leaving every other partition
untouched — this holds whatever `findIndex` returned, valid or -1. -/
theorem dense_handleDragEnd (s : List Block) (today : Int) (movedId : Int)
    (over : Option Int) (hd : dense s) :
    dense (handleDragEnd s today movedId over) := by
  rcases over with _ | targetId
  · simpa [handleDragEnd] using hd
  by_cases heq : movedId = targetId
  · simpa [handleDragEnd, heq] using hd
  rcases hrem : spliceRemove (todaysBlocks s today)
      (findIndexJS (fun b => b.id == movedId) (todaysBlocks s today)) with ⟨rest, mo⟩
  have hun : handleDragEnd s today movedId (some targetId) =
      (if movedId = targetId then s else
        match spliceRemove (todaysBlocks s today)
            (findIndexJS (fun b => b.id == movedId) (todaysBlocks s today)) with
          | (rest, some moved) =>
              s.filter (fun b => b.date != today)
                ++ withOrders 0 (spliceInsert rest
                    (findIndexJS (fun b => b.id == targetId) (todaysBlocks s today)) moved)
          | (_, none) => s) := rfl
  rcases mo with _ | moved
  · rw [hun, if_neg heq, hrem]
    exact hd
  · rw [hun, if_neg heq, hrem]
    show dense (s.filter (fun b => b.date != today)
      ++ withOrders 0 (spliceInsert rest
          (findIndexJS (fun b => b.id == targetId) (todaysBlocks s today)) moved))
    have hrest : ∀ b ∈ rest, b.date = today := by
      intro b hb
      have h1 : b ∈ (spliceRemove (todaysBlocks s today)
          (findIndexJS (fun b => b.id == movedId) (todaysBlocks s today))).1 := by
        rw [hrem]
        exact hb
      exact (mem_todaysBlocks (mem_of_mem_spliceRemove h1)).2
    have hmoved : moved.date = today := by
      have h1 : (spliceRemove (todaysBlocks s today)
          (findIndexJS (fun b => b.id == movedId) (todaysBlocks s today))).2
          = some moved := by
        rw [hrem]
      exact (mem_todaysBlocks (mem_of_spliceRemove_some h1)).2
    generalize findIndexJS (fun b => b.id == targetId) (todaysBlocks s today) = idx
    have hins : ∀ b ∈ spliceInsert rest idx moved, b.date = today := by
      intro b hb
      rcases mem_spliceInsert hb with h' | h'
      · rw [h']
        exact hmoved
      · exact hrest b h'
    have hupd : ∀ b ∈ withOrders 0 (spliceInsert rest idx moved), b.date = today := by
      intro b hb
      obtain ⟨c, hc, he⟩ := date_of_mem_withOrders 0 _ b hb
      rw [he]
      exact hins c hc
    intro d
    rw [ordersOn_append, ordersOn_filter_ne]
    by_cases hdt : d = today
    · subst hdt
      rw [if_pos rfl, List.nil_append, ordersOn_all_today hupd,
        withOrders_map_order, ← List.range_eq_range', List.length_range]
    · rw [if_neg hdt]
      have hnone : ordersOn (withOrders 0 (spliceInsert rest idx moved)) d = [] := by
        apply ordersOn_none
        intro b hb
        rw [hupd b hb]
        exact fun hc => hdt hc.symm
      rw [hnone, List.append_nil]
      exact hd d

/-- The concrete two-block day-0 store is dense. -/
theorem dense_exAB : dense [exA, exB] := by
  intro d
  by_cases h : d = 0
  · subst h
    decide
  · have hnone : ordersOn [exA, exB] d = [] := by
      apply ordersOn_none
      intro b hb
      have hdate : b.date = 0 := by
        rcases List.mem_cons.mp hb with h' | h'
        · rw [h']
          rfl
        · rw [List.mem_singleton.mp h']
          rfl
      rw [hdate]
      exact fun hc => h hc.symm
    rw [hnone]
    exact List.Perm.refl _

/-- Counterexample to C1 as stated: from the dense two-block day-0 store,
deleting the block with order 0 leaves the other block with order 1, so the
day-0 orders are then the singleton 1, not 0..0 — `deleteBlock` filters and
never reindexes the affected partition. -/
theorem delete_breaks_density :
    dense [exA, exB] ∧ ¬ dense (applyOps 0 [exA, exB] [Op.del 1]) := by
  refine ⟨dense_exAB, fun h => ?_⟩
  have h0 := h 0
  have hred : applyOps 0 [exA, exB] [Op.del 1] = [exB] := rfl
  rw [hred] at h0
  revert h0
  decide

/-- C1 (amended).  Starting from a store whose every date partition has
order multiset exactly 0..n-1, any sequence of `addBlock` and reorder
(`handleDragEnd`) operations preserves that density; `deleteBlock` is
excluded because it removes rows without reindexing and can break the
invariant. -/
theorem density_preserved (today : Int) : ∀ (ops : List Op) (s : List Block),
    dense s → (∀ o ∈ ops, o.isDel = false) → dense (applyOps today s ops) := by
  intro ops
  induction ops with
  | nil => intro s hd _; exact hd
  | cons o rest ih =>
      intro s hd hops
      have hone : dense (applyOp today s o) := by
        cases o with
        | add newId title c r => exact dense_addBlock s today newId title c r hd
        | drag m over => exact dense_handleDragEnd s today m over hd
        | del id =>
            have hdel := hops (Op.del id) (List.mem_cons_self _ _)
            simp [Op.isDel] at hdel
      exact ih (applyOp today s o) hone
        (fun o' ho' => hops o' (List.mem_cons_of_mem o ho'))

/-- Witness for C1's amended theorem: an add followed by a drag on the
concrete dense store. -/
theorem density_preserved_witness :
    dense (applyOps 0 [exA, exB]
      [Op.add 7 "c" Category.Work false, Op.drag 1 (some 2)]) :=
  density_preserved 0 [Op.add 7 "c" Category.Work false, Op.drag 1 (some 2)]
    [exA, exB] dense_exAB (by decide)

end LifeTracker
